import Mathlib

/-!
Verification development for the boxd consensus core: a shallow embedding of
the script interpreter (`script/script.go`), the signature-hash draft logic,
and the chain engine fragments of `chain` (block connection fee checks, fork
finding, orphan processing, eternal pointer, bloom filter construction),
together with theorems settling the specified properties.

Bytes are modelled as `Nat` (scripts in the source are `[]byte`), machine
`uint64` arithmetic as `Nat` with explicit reduction modulo `2 ^ 64`, Go maps
as Lean functions into `Option`, and fallible operations as `Except`.
External collaborators that are not part of this repository (cryptographic
hashing, signature verification, storage, the sync manager, the consensus
plugin) are abstracted as parameters, since the embedded code only branches on
their results.
-/

namespace Boxd

/-- A script byte. Scripts in the source are `[]byte`; the embedding carries
them as lists of naturals. -/
abbrev Byte := Nat

/-- Opcode constants used by the embedded fragments. `opcode.go` itself is not
under `src/`; the values for the three `OP_PUSHDATA` opcodes are stated in the
spec (§4.1: 0x4c, 0x4d, 0x4e), and the remaining values are the standard
Bitcoin opcode numbers that the spec's opcode table refers to. -/
def OPPUSHDATA1 : Byte := 0x4c

def OPPUSHDATA2 : Byte := 0x4d

def OPPUSHDATA4 : Byte := 0x4e

def OP1NEGATE : Byte := 0x4f

def OPRESERVED : Byte := 0x50

def OP1 : Byte := 0x51

def OP16 : Byte := 0x60

def OPDUP : Byte := 0x76

def OPEQUAL : Byte := 0x87

def OPEQUALVERIFY : Byte := 0x88

def OPADD : Byte := 0x93

def OPSUB : Byte := 0x94

def OPHASH160 : Byte := 0xa9

def OPCODESEPARATOR : Byte := 0xab

def OPCHECKSIG : Byte := 0xac

def OPCHECKSIGVERIFY : Byte := 0xad

/-- Error values of the embedded code. The source uses distinct `error`
values (`ErrScriptBound`, `core.ErrBadFees`, ...); the embedding collects the
ones reachable from the embedded fragments into one inductive type.
`outOfFuel` is not a source error: it marks exhaustion of the explicit bound
given to the two source loops that have no structural measure, and the
theorems show it is not reached on the runs they describe. -/
inductive Err where
  | scriptBound
  | noEnoughDataPushData1
  | noEnoughDataPushData2
  | noEnoughDataPushData4
  | invalidStackOperation
  | equalVerify
  | signatureVerifyFail
  | badOpcode
  | scriptNumError
  | inputIndexOutOfBound
  | badFees
  | badCoinbaseValue
  | failedToSetEternal
  | blockExists
  | failedToVerifyWithConsensus
  | validateFail
  | syncFail
  | storageFail
  | panicFail
  | outOfFuel
  deriving DecidableEq

deriving instance DecidableEq for Except

/-- Little-endian 16-bit read, `binary.LittleEndian.Uint16`. -/
def leUint16 (b0 b1 : Byte) : Nat := b0 + 256 * b1

/-- Little-endian 32-bit read, `binary.LittleEndian.Uint32`. -/
def leUint32 (b0 b1 b2 b3 : Byte) : Nat :=
  b0 + 256 * b1 + 65536 * b2 + 16777216 * b3

/-- Final part of `parseNextOp` (script.go): bounds-check the operand size
against the remaining script and slice the operand out.  Mirrors the
`scriptLen-pc < operandSize` check and `script[pc : pc+operandSize]`. -/
def finishParse (s : List Byte) (opCode operandSize pc2 : Nat) :
    Nat × List Byte × Nat × Option Err :=
  if s.length - pc2 < operandSize then (opCode, [], pc2, some .scriptBound)
  else (opCode, (s.drop pc2).take operandSize, pc2 + operandSize, none)

/-- `Script.parseNextOp` (script.go lines 607-655; the other copy at lines
212-260 is byte-for-byte identical up to error values): returns
`(opCode, operand, newPc, err)`, exactly the Go quadruple.  Note the
`OP_PUSHDATA4` branch: the source bounds-checks four bytes but then reads the
operand size with `binary.LittleEndian.Uint16(script[pc : pc+4])`, i.e. only
the first two of the four length bytes, before advancing `pc` by 4. -/
def parseNextOp (s : List Byte) (pc : Nat) : Nat × List Byte × Nat × Option Err :=
  let scriptLen := s.length
  if pc ≥ scriptLen then (0, [], pc, some .scriptBound)
  else
    let opCode := s.getD pc 0
    let pc1 := pc + 1
    if opCode > OPPUSHDATA4 then (opCode, [], pc1, none)
    else if opCode < OPPUSHDATA1 then
      finishParse s opCode opCode pc1
    else if opCode = OPPUSHDATA1 then
      if scriptLen - pc1 < 1 then (opCode, [], pc1, some .noEnoughDataPushData1)
      else finishParse s opCode (s.getD pc1 0) (pc1 + 1)
    else if opCode = OPPUSHDATA2 then
      if scriptLen - pc1 < 2 then (opCode, [], pc1, some .noEnoughDataPushData2)
      else finishParse s opCode (leUint16 (s.getD pc1 0) (s.getD (pc1 + 1) 0)) (pc1 + 2)
    else
      if scriptLen - pc1 < 4 then (opCode, [], pc1, some .noEnoughDataPushData4)
      else finishParse s opCode (leUint16 (s.getD pc1 0) (s.getD (pc1 + 1) 0)) (pc1 + 4)

/-- `Script.AddOperand` (script.go lines 523-545): append a length-prefixed
data push chosen by operand size, then the operand bytes. -/
def addOperand (s : List Byte) (operand : List Byte) : List Byte :=
  let dataLen := operand.length
  (if dataLen < OPPUSHDATA1 then s ++ [dataLen]
   else if dataLen ≤ 0xff then s ++ [OPPUSHDATA1, dataLen]
   else if dataLen ≤ 0xffff then
     s ++ [OPPUSHDATA2, dataLen % 256, dataLen / 256 % 256]
   else
     s ++ [OPPUSHDATA4, dataLen % 256, dataLen / 256 % 256,
           dataLen / 65536 % 256, dataLen / 16777216 % 256])
  ++ operand

/-- Helper for `natLeBytes`: peel base-256 digits, structurally recursing on
a step bound (each step divides by 256, so a bound of `n` more than covers
`n`'s digits). -/
def natLeBytesAux : Nat → Nat → List Byte
  | 0, _ => []
  | fuel + 1, n => if n = 0 then [] else (n % 256) :: natLeBytesAux fuel (n / 256)

/-- Modelled from the spec: `scriptnum.go` is not under `src/`.  Little-endian
byte decomposition of a natural number, the magnitude part of the canonical
minimal numeric encoding (§4.1: numeric pushes use "canonical minimal bytes";
§9 open question 1 selects the minimal-push semantics). -/
def natLeBytes (n : Nat) : List Byte :=
  natLeBytesAux n n

/-- Modelled from the spec: `scriptNum.Bytes()`, the canonical minimal
little-endian sign-magnitude encoding — empty for zero, magnitude bytes with
the sign carried in the high bit of the final byte, an extra sign byte when
the magnitude already uses that bit. -/
def scriptNumBytes (v : Int) : List Byte :=
  if v = 0 then []
  else
    let mag := natLeBytes v.natAbs
    let last := mag.getLast?.getD 0
    if 128 ≤ last then mag ++ [if v < 0 then 128 else 0]
    else if v < 0 then mag.dropLast ++ [last + 128]
    else mag

/-- Value of a little-endian byte list. -/
def leValue : List Byte → Nat
  | [] => 0
  | b :: bs => b + 256 * leValue bs

/-- Modelled from the spec: decode of a sign-magnitude little-endian operand
(the sign is the high bit of the final byte). -/
def decodeScriptNum (op : List Byte) : Int :=
  match op.getLast? with
  | none => 0
  | some last =>
    let mag : Nat := leValue (op.dropLast ++ [last % 128])
    if 128 ≤ last then -(mag : Int) else (mag : Int)

/-- Modelled from the spec: rejects a numeric operand whose final byte carries
no payload bits while the preceding byte leaves the sign bit free — the
non-minimal encodings the stricter semantics of §9 open question 1 rejects. -/
def minimalViolation (op : List Byte) : Bool :=
  match op.getLast? with
  | none => false
  | some last =>
    last % 128 == 0 && (op.length == 1 || op.getD (op.length - 2) 0 < 128)

/-- Modelled from the spec: `newScriptNum` — at most four bytes, minimally
encoded, otherwise an error. -/
def newScriptNum (op : List Byte) : Except Err Int :=
  if 4 < op.length then .error .scriptNumError
  else if minimalViolation op then .error .scriptNumError
  else .ok (decodeScriptNum op)

/-- Modelled from the spec: `operandTrue` pushed by comparison opcodes
(`stack.go` is not under `src/`). -/
def operandTrue : List Byte := [1]

/-- Modelled from the spec: `operandFalse` pushed by comparison opcodes. -/
def operandFalse : List Byte := []

/-- A truthy operand: some byte is non-zero (§4.1: success iff the script
leaves a truthy value on top of the stack). -/
def truthy (op : List Byte) : Bool := op.any (fun b => b != 0)

/-- Modelled from the spec: `Stack.validateTop` — error on an empty stack or a
falsey top operand. -/
def validateTop (stack : List (List Byte)) : Except Err Unit :=
  match stack with
  | [] => .error .invalidStackOperation
  | top :: _ => if truthy top then .ok () else .error .invalidStackOperation

/-- The external collaborators the script interpreter branches on:
`crypto.Hash160` and the signature check `verifySig` (script.go lines
786-807, which defers to the external `crypto` package).  `sigVerify`
receives the signature, the public key and the `scriptPubKey` suffix from the
last `OP_CODESEPARATOR`; the transaction and input index of the evaluation are
fixed inside it. -/
structure ScriptEnv where
  hash160 : List Byte → List Byte
  sigVerify : List Byte → List Byte → List Byte → Bool

/-- `Script.execOp` (script.go lines 658-784): execute one opcode on the
stack (head of the list = top of the stack).  Returns the updated
`scriptPubKeyStart` marker and stack. -/
def execOp (env : ScriptEnv) (s : List Byte) (opCode : Byte) (pushData : List Byte)
    (pc spkStart : Nat) (stack : List (List Byte)) :
    Except Err (Nat × List (List Byte)) :=
  if opCode ≤ OPPUSHDATA4 then .ok (spkStart, pushData :: stack)
  else if opCode ≤ OP16 ∧ opCode ≠ OPRESERVED then
    .ok (spkStart, scriptNumBytes ((opCode : Int) - (OP1 : Int) + 1) :: stack)
  else if opCode = OPDUP then
    match stack with
    | [] => .error .invalidStackOperation
    | top :: rest => .ok (spkStart, top :: top :: rest)
  else if opCode = OPADD ∨ opCode = OPSUB then
    match stack with
    | op2 :: op1 :: rest =>
      match newScriptNum op1 with
      | .error e => .error e
      | .ok sn1 =>
        match newScriptNum op2 with
        | .error e => .error e
        | .ok sn2 =>
          let sn := if opCode = OPADD then sn1 + sn2 else sn1 - sn2
          .ok (spkStart, scriptNumBytes sn :: rest)
    | _ => .error .invalidStackOperation
  else if opCode = OPEQUAL ∨ opCode = OPEQUALVERIFY then
    match stack with
    | op2 :: op1 :: rest =>
      let isEqual := op1 == op2
      if opCode = OPEQUALVERIFY then
        if isEqual then .ok (spkStart, rest) else .error .equalVerify
      else .ok (spkStart, (if isEqual then operandTrue else operandFalse) :: rest)
    | _ => .error .invalidStackOperation
  else if opCode = OPHASH160 then
    match stack with
    | [] => .error .invalidStackOperation
    | top :: rest => .ok (spkStart, env.hash160 top :: rest)
  else if opCode = OPCODESEPARATOR then .ok (pc, stack)
  else if opCode = OPCHECKSIG ∨ opCode = OPCHECKSIGVERIFY then
    match stack with
    | publicKey :: signature :: rest =>
      let isVerified := env.sigVerify signature publicKey (s.drop spkStart)
      if opCode = OPCHECKSIGVERIFY then
        if isVerified then .ok (spkStart, rest) else .error .signatureVerifyFail
      else .ok (spkStart, (if isVerified then operandTrue else operandFalse) :: rest)
    | _ => .error .invalidStackOperation
  else .error .badOpcode

/-- The interpreter loop of `Script.evaluate` (script.go lines 584-604),
with an explicit iteration bound: the Go loop runs while `pc < scriptLen`,
and every successful `parseNextOp` advances `pc` by at least one byte, so a
bound of `scriptLen + 1` (supplied by `evaluate`) is never exhausted — see
`evalLoop_no_fuel`. -/
def evalLoop (env : ScriptEnv) (s : List Byte) :
    Nat → Nat → Nat → List (List Byte) → Except Err Unit
  | 0, pc, _, stack =>
    if pc < s.length then .error .outOfFuel else validateTop stack
  | fuel + 1, pc, spkStart, stack =>
    if pc < s.length then
      match parseNextOp s pc with
      | (_, _, _, some e) => .error e
      | (opCode, operand, newPc, none) =>
        match execOp env s opCode operand newPc spkStart stack with
        | .error e => .error e
        | .ok (spk2, stack2) => evalLoop env s fuel newPc spk2 stack2
    else validateTop stack

/-- `Script.evaluate` (script.go lines 584-604): run the script from `pc = 0`
with `scriptPubKeyStart = 0` and an empty stack, then require a truthy top. -/
def evaluate (env : ScriptEnv) (s : List Byte) : Except Err Unit :=
  evalLoop env s (s.length + 1) 0 0 []

/-- `Script.IsPayToScriptHash` (script.go lines 863-867). -/
def IsPayToScriptHash (s : List Byte) : Bool :=
  s.length == 23 && s.getD 0 0 == OPHASH160 && s.getD 1 0 == 20
    && s.getD 22 0 == OPEQUAL

/-- `Validate` (script.go lines 554-580): evaluate
`scriptSig ++ OP_CODESEPARATOR ++ scriptPubKey`; on success, for a
pay-to-script-hash `scriptPubKey`, re-parse `scriptSig` as
signature and serialized redeem script (parse errors discarded, as in the
source) and evaluate the rebuilt script. -/
def Validate (env : ScriptEnv) (scriptSig scriptPubKey : List Byte) : Except Err Unit :=
  let catScript := scriptSig ++ OPCODESEPARATOR :: scriptPubKey
  match evaluate env catScript with
  | .error e => .error e
  | .ok _ =>
    if IsPayToScriptHash scriptPubKey then
      let p1 := parseNextOp scriptSig 0
      let newScriptSig := addOperand [] p1.2.1
      let p2 := parseNextOp scriptSig p1.2.2.1
      evaluate env (newScriptSig ++ OPCODESEPARATOR :: p2.2.1)
    else .ok ()

/-- Phase 1 of §4.1 P2SH validation as the spec words it: execute
`script_sig || OP_CODESEPARATOR || script_pubkey`. -/
def p2shPhase1 (env : ScriptEnv) (scriptSig scriptPubKey : List Byte) : Except Err Unit :=
  evaluate env (scriptSig ++ OPCODESEPARATOR :: scriptPubKey)

/-- Phase 2 of §4.1 P2SH validation as the spec words it: parse `script_sig`
as `(signature, serialized_redeem_script)` and execute
`push(signature) || OP_CODESEPARATOR || redeem_script`. -/
def p2shPhase2 (env : ScriptEnv) (scriptSig : List Byte) : Except Err Unit :=
  let p1 := parseNextOp scriptSig 0
  let p2 := parseNextOp scriptSig p1.2.2.1
  evaluate env (addOperand [] p1.2.1 ++ OPCODESEPARATOR :: p2.2.1)

/-- `types.OutPoint` (§3 data model; `core/types` is not under `src/`). -/
structure OutPoint where
  txHash : Nat
  index : Nat
  deriving DecidableEq

/-- `types.TxIn` (§3 data model). -/
structure TxIn where
  prevOutPoint : OutPoint
  scriptSig : List Byte
  sequence : Nat
  deriving DecidableEq

/-- `types.TxOut` (§3 data model). -/
structure TxOut where
  value : Nat
  scriptPubKey : List Byte
  deriving DecidableEq

/-- `types.Transaction` (§3 data model: version, vin, vout, lock_time). -/
structure Tx where
  version : Nat
  vin : List TxIn
  vout : List TxOut
  lockTime : Nat
  deriving DecidableEq

/-- The blanking pass of `CalcTxHashForSig` (script.go lines 818-828): input
`txInIdx` gets the referenced `scriptPubKey` as its script sig, every other
input gets an empty one.  `i` is the index of the first list element. -/
def blankScriptSigs (scriptPubKey : List Byte) (txInIdx : Nat) :
    List TxIn → Nat → List TxIn
  | [], _ => []
  | txIn :: rest, i =>
    (if i ≠ txInIdx then { txIn with scriptSig := [] }
     else { txIn with scriptSig := scriptPubKey })
      :: blankScriptSigs scriptPubKey txInIdx rest (i + 1)

/-- The restore pass of `CalcTxHashForSig` (script.go lines 833-836): write
the saved script sigs back by position. -/
def restoreScriptSigs : List TxIn → List (List Byte) → List TxIn
  | [], _ => []
  | txIn :: rest, [] => txIn :: rest
  | txIn :: rest, old :: olds => { txIn with scriptSig := old } :: restoreScriptSigs rest olds

/-- `CalcTxHashForSig` (script.go lines 810-838), with the transaction state
passed explicitly: the result is the hash outcome together with the
transaction as it stands when the function returns.  `calcTxHash` abstracts
the external `tx.CalcTxHash()` serialization hash. -/
def calcTxHashForSig (calcTxHash : Tx → Except Err (List Byte))
    (scriptPubKey : List Byte) (tx : Tx) (txInIdx : Nat) :
    Except Err (List Byte) × Tx :=
  if txInIdx ≥ tx.vin.length then (.error .inputIndexOutOfBound, tx)
  else
    let oldScriptSigs := tx.vin.map (fun txIn => txIn.scriptSig)
    let draft := { tx with vin := blankScriptSigs scriptPubKey txInIdx tx.vin 0 }
    let sigHash := calcTxHash draft
    (sigHash, { draft with vin := restoreScriptSigs draft.vin oldScriptSigs })

/-- `2 ^ 64`, the modulus of the source's `uint64` arithmetic. -/
def U64 : Nat := 2 ^ 64

/-- The fee-accumulation loop of `tryConnectBlockToMainChain`
(circulation.go lines 715-728): running `uint64` total with the
`totalFees < lastTotalFees` wrap check; a wrap rejects with `core.ErrBadFees`.
The per-transaction fees returned by `ValidateTxInputs` (not under `src/`)
are the list elements. -/
def accumulateFees : List Nat → Nat → Except Err Nat
  | [], totalFees => .ok totalFees
  | txFee :: rest, totalFees =>
    let lastTotalFees := totalFees
    let totalFees2 := (totalFees + txFee) % U64
    if totalFees2 < lastTotalFees then .error .badFees
    else accumulateFees rest totalFees2

/-- The fee and coinbase-value fragment of `tryConnectBlockToMainChain`
(circulation.go lines 715-740): accumulate the per-transaction fees with the
wrap check, sum the coinbase outputs in `uint64`, and reject with
`core.ErrBadCoinbaseValue` when they exceed `subsidy + totalFees`.
`subsidy` stands for `CalcBlockSubsidy(block.Height)` (not under `src/`). -/
def connectFeeAndCoinbaseCheck (txFees coinbaseVals : List Nat) (subsidy : Nat) :
    Except Err Unit :=
  match accumulateFees txFees 0 with
  | .error e => .error e
  | .ok totalFees =>
    let totalCoinbaseOutput := coinbaseVals.foldl (fun acc v => (acc + v) % U64) 0
    let expectedCoinbaseOutput := (subsidy + totalFees) % U64
    if totalCoinbaseOutput > expectedCoinbaseOutput then .error .badCoinbaseValue
    else .ok ()

/-- `types.Block`, reduced to the fields the embedded chain fragments read:
its hash (`BlockHash()`, abstracted as a stored digest), the header's
`PrevBlockHash` and `Height`, and the transaction list. -/
structure Block where
  hash : Nat
  prevHash : Nat
  height : Nat
  txs : List Tx
  deriving DecidableEq

/-- `SetEternal` (circulation.go lines 912-922), with the eternal pointer
passed and returned explicitly.  `storeEternal` abstracts
`StoreEternalBlock` (serialization plus `db.Put`), which can fail. -/
def setEternal (storeEternal : Block → Except Err Unit) (eternal block : Block) :
    Except Err Unit × Block :=
  if eternal.height < block.height then
    match storeEternal block with
    | .error e => (.error e, eternal)
    | .ok _ => (.ok (), block)
  else (.error .failedToSetEternal, eternal)

/-- The chain context `findFork` reads: `getParentBlock` (cache and storage
lookup by `PrevBlockHash`, circulation.go lines 683-697) abstracted as a
partial parent map. -/
structure ForkEnv where
  parent : Block → Option Block

/-- `k`-fold application of the parent map. -/
def iterParent (env : ForkEnv) : Nat → Block → Option Block
  | 0, b => some b
  | k + 1, b =>
    match env.parent b with
    | none => none
    | some p => iterParent env k p

/-- First loop of `findFork` (circulation.go lines 764-771): walk the side
chain up for a fixed number of steps (`block.Height - LongestChainHeight`
iterations), appending each visited block to `attachBlocks`; a missing parent
mid-walk is the source's `logger.Panicf` branch. -/
def findForkDescend (env : ForkEnv) :
    Nat → Option Block → List Block → Except Err (List Block × Option Block)
  | 0, b, attach => .ok (attach, b)
  | steps + 1, b, attach =>
    match b with
    | none => .error .panicFail
    | some blk => findForkDescend env steps (env.parent blk) (attach ++ [blk])

/-- Second loop of `findFork` (circulation.go lines 774-795): descend both
chains in lock step until the hashes agree.  A height mismatch, running out
of blocks before a common block is found, and `len(attach) ≤ len(detach)` at
the fork point are the source's `logger.Panicf` branches (the length check
follows the loop in the source; it is evaluated here at the break, which is
the only path that reaches it).  The loop has no structural measure, so it
carries an explicit bound; `findFork_meets_invariant` shows the bound used by
`findFork`'s callers is never exhausted under the reorg precondition. -/
def findForkJoin (env : ForkEnv) :
    Nat → Option Block → Option Block → List Block → List Block →
    Except Err (Block × List Block × List Block)
  | fuel, mo, so, detach, attach =>
    match mo, so with
    | some m, some s =>
      if m.height ≠ s.height then .error .panicFail
      else if m.hash = s.hash then
        if attach.length ≤ detach.length then .error .panicFail
        else .ok (m, detach, attach)
      else
        match fuel with
        | 0 => .error .outOfFuel
        | n + 1 =>
          findForkJoin env n (env.parent m) (env.parent s) (detach ++ [m]) (attach ++ [s])
    | _, _ => .error .panicFail

/-- `findFork` (circulation.go lines 755-796): the guard
`block.Height ≤ LongestChainHeight` panics; otherwise walk the side chain
down to the main chain height, then join both walks at the fork point and
return `(fork, detachBlocks, attachBlocks)`. -/
def findFork (env : ForkEnv) (tail : Block) (longest : Nat) (block : Block)
    (fuel : Nat) : Except Err (Block × List Block × List Block) :=
  if block.height ≤ longest then .error .panicFail
  else
    match findForkDescend env (block.height - longest) (some block) [] with
    | .error e => .error e
    | .ok (attach, sideChainBlock) =>
      findForkJoin env fuel (some tail) sideChainBlock [] attach

/-- `Threshold` (circulation.go line 330). -/
def Threshold : Nat := 32

/-- The collaborators `ProcessBlock` branches on: the block cache and storage
lookup behind `blockExists` (circulation.go lines 573-581), the external
consensus check `VerifySign`, the context-free `validateBlock` (not under
`src/`), `tryAcceptBlock` — which touches the chain and block cache but never
the orphan maps (circulation.go lines 591-643) — and the sync manager's
`ActiveLightSync` result.  `StartSync` returns nothing and is dropped. -/
structure ChainEnv where
  blockExistsMain : Nat → Bool
  verifySign : Block → Bool
  validateBlock : Block → Except Err Unit
  tryAccept : Block → Except Err Unit
  activeLightSync : Except Err Unit

/-- The orphan-pool and tail state `ProcessBlock` reads and writes:
`hashToOrphanBlock` and `orphanBlockHashToChildren` (Go maps, modelled as
functions; an absent children entry is the empty list, matching Go map
reads), plus the tail height read at the orphan branch. -/
structure ChainState where
  hashToOrphanBlock : Nat → Option Block
  orphanChildren : Nat → List Block
  tailHeight : Nat

/-- `addOrphanBlock` (circulation.go lines 645-649). -/
def addOrphanBlock (st : ChainState) (orphan : Block)
    (orphanHash parentHash : Nat) : ChainState :=
  { st with
    hashToOrphanBlock := fun h =>
      if h = orphanHash then some orphan else st.hashToOrphanBlock h
    orphanChildren := fun h =>
      if h = parentHash then st.orphanChildren h ++ [orphan]
      else st.orphanChildren h }

/-- Inner loop of `processOrphans` (circulation.go lines 663-675): for each
child of the accepted block, first delete it from `hashToOrphanBlock`, then
try to accept it; a failure returns immediately, a success appends the child
to the pending queue. -/
def drainChildren (env : ChainEnv) :
    List Block → List Block → ChainState →
    Except Err Unit × List Block × ChainState
  | [], queue, st => (.ok (), queue, st)
  | orphan :: rest, queue, st =>
    let st1 := { st with hashToOrphanBlock := fun h =>
      if h = orphan.hash then none else st.hashToOrphanBlock h }
    match env.tryAccept orphan with
    | .error e => (.error e, queue, st1)
    | .ok _ => drainChildren env rest (queue ++ [orphan]) st1

/-- Outer loop of `processOrphans` (circulation.go lines 657-678): process the
queue of accepted blocks in order; each step drains the current block's
children and then deletes its `orphanBlockHashToChildren` entry.  The queue
can grow while the loop runs, so the loop carries an explicit bound; the Go
loop terminates because every parent entry is deleted after being drained. -/
def processOrphansLoop (env : ChainEnv) :
    Nat → List Block → ChainState → Except Err Unit × ChainState
  | _, [], st => (.ok (), st)
  | 0, _ :: _, st => (.error .outOfFuel, st)
  | fuel + 1, acceptedBlock :: rest, st =>
    let childOrphans := st.orphanChildren acceptedBlock.hash
    match drainChildren env childOrphans rest st with
    | (.error e, _, st1) => (.error e, st1)
    | (.ok _, queue2, st1) =>
      processOrphansLoop env fuel queue2
        { st1 with orphanChildren := fun h =>
          if h = acceptedBlock.hash then [] else st1.orphanChildren h }

/-- `processOrphans` (circulation.go lines 651-680): start from the block
just accepted. -/
def processOrphans (env : ChainEnv) (fuel : Nat) (block : Block)
    (st : ChainState) : Except Err Unit × ChainState :=
  processOrphansLoop env fuel [block] st

/-- `ProcessBlock` (circulation.go lines 508-567): deduplicate against main
chain and orphan pool, verify the consensus signature, validate structure;
a block whose parent is unknown is admitted to the orphan pool, possibly
triggering a sync; otherwise accept it and drain its orphan descendants.
Broadcast and eternal-advertisement side effects carry no return value and
are dropped.  `messageFrom` is the sending peer's identifier, empty for a
local submission. -/
def processBlock (env : ChainEnv) (fuel : Nat) (st : ChainState)
    (block : Block) (messageFrom : String) : Except Err Unit × ChainState :=
  let blockHash := block.hash
  if env.blockExistsMain blockHash || (st.hashToOrphanBlock blockHash).isSome then
    (.error .blockExists, st)
  else if !(env.verifySign block) then (.error .failedToVerifyWithConsensus, st)
  else
    match env.validateBlock block with
    | .error e => (.error e, st)
    | .ok _ =>
      if !(env.blockExistsMain block.prevHash) then
        let st1 := addOrphanBlock st block blockHash block.prevHash
        let height := st.tailHeight
        if height < block.height ∧ messageFrom ≠ "" then
          if block.height - height < Threshold then (env.activeLightSync, st1)
          else (.ok (), st1)
        else (.ok (), st1)
      else
        match env.tryAccept block with
        | .error e => (.error e, st)
        | .ok _ =>
          match processOrphans env fuel block st with
          | (.error e, st2) => (.error e, st2)
          | (.ok _, st2) => (.ok (), st2)

/-- `types.UtxoWrap` (§3 data model; `core/types` is not under `src/`).  The
`Output` field is a pointer in the source and may be nil, which
`GetFilterForTransactionScript` checks. -/
structure UtxoWrap where
  output : Option TxOut
  blockHeight : Nat
  isCoinbase : Bool
  isSpent : Bool
  isModified : Bool
  deriving DecidableEq

/-- The token-script helpers of the `script` package referenced by
`GetFilterForTransactionScript` (`token.go` is not under `src/`), abstracted:
the two token predicates and the embedded pay-to-pubkey-hash part of a token
script (§4.4: token outputs contribute that part so address queries match). -/
structure TokenEnv where
  isTokenIssue : List Byte → Bool
  isTokenXfer : List Byte → Bool
  p2pkhPart : List Byte → List Byte

/-- The observable description of a bloom filter: the capacity and
false-positive rate passed to `bloom.NewFilter` (the `bloom` package is an
external collaborator) and the list of elements added, in order.  The rate is
recorded as the literal `0.0001 = fpNum / fpDen` of circulation.go line 1289;
no arithmetic is performed on it. -/
structure FilterSpec where
  capacity : Nat
  fpNum : Nat
  fpDen : Nat
  adds : List (List Byte)
  deriving DecidableEq

/-- The `vout` collection loop of `GetFilterForTransactionScript`
(circulation.go lines 1279-1283): every output script of every transaction. -/
def voutScripts (block : Block) : List (List Byte) :=
  block.txs.flatMap (fun tx => tx.vout.map (fun out => out.scriptPubKey))

/-- The `vin` collection loop of `GetFilterForTransactionScript`
(circulation.go lines 1284-1288): the scripts of the non-nil utxo-map entries
with non-nil outputs, in map-iteration order (the map is carried as a list of
entries). -/
def filterVin (utxoUsed : List (Option UtxoWrap)) : List (List Byte) :=
  utxoUsed.filterMap (fun u =>
    match u with
    | some w =>
      match w.output with
      | some out => some out.scriptPubKey
      | none => none
    | none => none)

/-- The token replacement of circulation.go lines 1294-1298: a token-issue or
token-transfer output script contributes its embedded pay-to-pubkey-hash
part instead of the full script. -/
def tokenAdjust (tok : TokenEnv) (scriptBytes : List Byte) : List Byte :=
  if tok.isTokenIssue scriptBytes || tok.isTokenXfer scriptBytes then
    tok.p2pkhPart scriptBytes
  else scriptBytes

/-- `GetFilterForTransactionScript` (circulation.go lines 1277-1303):
dimension the filter for `len(vin) + len(vout) + 1` at rate `0.0001`, add the
`vin` scripts unchanged, then the `vout` scripts with the token
replacement. -/
def GetFilterForTransactionScript (tok : TokenEnv) (block : Block)
    (utxoUsed : List (Option UtxoWrap)) : FilterSpec :=
  let vout := voutScripts block
  let vin := filterVin utxoUsed
  { capacity := vin.length + vout.length + 1
    fpNum := 1
    fpDen := 10000
    adds := vin ++ vout.map (fun scriptBytes => tokenAdjust tok scriptBytes) }

/-- Modelled from the spec: `utxoset.go` is not under `src/`.  Per §4.2 and
§3, `LoadBlockUtxos` fills the overlay with one wrap per outpoint referenced
by the block's non-coinbase inputs (`referenced`), and `ApplyBlock` then
marks those wraps spent — the entries remain, flagged `is_spent` — and adds a
fresh unspent wrap for every output the block creates.  This is the utxo map
`applyBlock` (circulation.go lines 844-848) hands to
`GetFilterForTransactionScript` after connecting the block. -/
def utxoMapAfterApply (referenced : List (Option UtxoWrap)) (block : Block) :
    List (Option UtxoWrap) :=
  referenced.map (fun u => u.map (fun w => { w with isSpent := true, isModified := true }))
    ++ (block.txs.enum.flatMap (fun p =>
        p.2.vout.map (fun out =>
          some { output := some out, blockHeight := block.height,
                 isCoinbase := p.1 = 0, isSpent := false, isModified := true })))

/-- The filter construction as the claim (and §4.4) words it: capacity
`n_inputs + n_outputs + 1` at rate `1e-4`; the elements are exactly the
script of every output referenced by the block's inputs (`refScripts`) and
every created output's script, token outputs contributing their embedded
pay-to-pubkey-hash part instead. -/
def claimedFilterSpec (tok : TokenEnv) (block : Block)
    (refScripts : List (List Byte)) : FilterSpec :=
  let outs := voutScripts block
  { capacity := refScripts.length + outs.length + 1
    fpNum := 1
    fpDen := 10000
    adds := refScripts ++ outs.map (fun scriptBytes => tokenAdjust tok scriptBytes) }

/-! Concrete fixtures used to instantiate the theorems on closed inputs. -/

/-- A block with the given digest, parent digest and height and no
transactions. -/
def testBlock (hash prevHash height : Nat) : Block :=
  { hash := hash, prevHash := prevHash, height := height, txs := [] }

/-- A script environment whose hash is the identity and whose signature check
always succeeds. -/
def testScriptEnv : ScriptEnv :=
  { hash160 := fun b => b, sigVerify := fun _ _ _ => true }

/-- A chain state with the given tail height and an empty orphan pool. -/
def emptyChainState (tailHeight : Nat) : ChainState :=
  { hashToOrphanBlock := fun _ => none, orphanChildren := fun _ => [],
    tailHeight := tailHeight }

/-- A chain environment with trivially passing consensus and structural
checks. -/
def testChainEnv (existsMain : Nat → Bool) (tryAcceptFn : Block → Except Err Unit)
    (lightSyncResult : Except Err Unit) : ChainEnv :=
  { blockExistsMain := existsMain, verifySign := fun _ => true,
    validateBlock := fun _ => .ok (), tryAccept := tryAcceptFn,
    activeLightSync := lightSyncResult }

/-- An orphan pool in which block 1 has the three children 6, 7, 8. -/
def testOrphanState : ChainState :=
  { hashToOrphanBlock := fun _ => none
    orphanChildren := fun h =>
      if h = 1 then [testBlock 6 1 2, testBlock 7 1 2, testBlock 8 1 2] else []
    tailHeight := 0 }

/-- A parent map under which every positive height has a parent one level
down (digest equal to the height). -/
def testParentEnv : ForkEnv :=
  { parent := fun b =>
      if b.height = 0 then none else some (testBlock (b.height - 1) 0 (b.height - 1)) }

/-- A token environment that treats the one-byte script `[0xaa]` as a token
issue whose embedded pay-to-pubkey-hash part is `[0x99]`. -/
def testTokenEnv : TokenEnv :=
  { isTokenIssue := fun s => s == [0xaa], isTokenXfer := fun _ => false,
    p2pkhPart := fun _ => [0x99] }

/-- A loaded referenced utxo wrap with a plain one-byte script. -/
def testRefWrap : UtxoWrap :=
  { output := some { value := 7, scriptPubKey := [0x55] },
    blockHeight := 4, isCoinbase := false, isSpent := false, isModified := false }

/-- A block holding one coinbase transaction with a single token output. -/
def testTokenBlock : Block :=
  { hash := 3, prevHash := 2, height := 9,
    txs := [{ version := 1, vin := [], lockTime := 0,
              vout := [{ value := 50, scriptPubKey := [0xaa] }] }] }

/-! Theorems. -/

/-- C1: on a script whose `OP_PUSHDATA4` opcode is followed by the four
little-endian length bytes `00 00 01 00` (32-bit value 65536) and nothing
else, `parseNextOp` succeeds with an empty operand and `pc = 5`: it reads the
operand size with a 16-bit load of the first two length bytes, yielding 0,
instead of the 32-bit little-endian value 65536, which exceeds the zero
remaining bytes and would have to produce a bounds error. -/
theorem parseNextOp_pushdata4_short_read :
    parseNextOp [OPPUSHDATA4, 0, 0, 1, 0] 0 = (OPPUSHDATA4, [], 5, none)
    ∧ leUint32 0 0 1 0 = 65536
    ∧ ([OPPUSHDATA4, 0, 0, 1, 0] : List Byte).length - 5 < leUint32 0 0 1 0 := by
  decide

/-- Restoring the saved script sigs after the blanking pass recovers the
original input list. -/
theorem restoreScriptSigs_blankScriptSigs (scriptPubKey : List Byte) (txInIdx : Nat)
    (vin : List TxIn) (n : Nat) :
    restoreScriptSigs (blankScriptSigs scriptPubKey txInIdx vin n)
      (vin.map (fun txIn => txIn.scriptSig)) = vin := by
  induction vin generalizing n with
  | nil => rfl
  | cons t ts ih =>
    simp only [blankScriptSigs, List.map_cons, restoreScriptSigs]
    rw [ih]
    split <;> rfl

/-- C4: `CalcTxHashForSig` is externally side-effect-free on the transaction:
whether it returns a hash or an error, the transaction it leaves behind —
every input's script sig included — is exactly the one it was given. -/
theorem calcTxHashForSig_restores_tx (calcTxHash : Tx → Except Err (List Byte))
    (scriptPubKey : List Byte) (tx : Tx) (txInIdx : Nat) :
    (calcTxHashForSig calcTxHash scriptPubKey tx txInIdx).2 = tx := by
  unfold calcTxHashForSig
  split
  · rfl
  · show { tx with vin := (restoreScriptSigs (blankScriptSigs scriptPubKey txInIdx tx.vin 0) (tx.vin.map (fun txIn => txIn.scriptSig))) } = tx
    rw [restoreScriptSigs_blankScriptSigs]

/-- C6: `SetEternal` advances the eternal pointer to `block` exactly when
`block`'s height is strictly greater than the current eternal height and the
store write succeeds; a non-advancing height yields the dedicated error with
the pointer unchanged, and a failing store write leaves the pointer unchanged
and surfaces the storage error. -/
theorem setEternal_spec (storeEternal : Block → Except Err Unit)
    (eternal block : Block) :
    ((eternal.height < block.height ∧ storeEternal block = .ok ()) ↔
        setEternal storeEternal eternal block = (.ok (), block))
    ∧ (¬ eternal.height < block.height →
        setEternal storeEternal eternal block = (.error .failedToSetEternal, eternal))
    ∧ (∀ e, storeEternal block = .error e →
        (setEternal storeEternal eternal block).2 = eternal
        ∧ (eternal.height < block.height →
            (setEternal storeEternal eternal block).1 = .error e)) := by
  unfold setEternal
  by_cases h : eternal.height < block.height
  · cases hs : storeEternal block with
    | error e => simp [h, hs]
    | ok _ => simp [h, hs]
  · simp [h]

/-- Witness for C6 at a concrete input: with a store that succeeds, the
pointer advances from height 0 to the height-1 block. -/
theorem setEternal_spec_witness :
    setEternal (fun _ => .ok ()) (testBlock 0 0 0) (testBlock 1 0 1)
      = (.ok (), testBlock 1 0 1) :=
  (setEternal_spec (fun _ => .ok ()) (testBlock 0 0 0) (testBlock 1 0 1)).1.mp
    ⟨by decide, rfl⟩

/-- The fee loop computes the exact sum when it stays below `2 ^ 64` and
reports `ErrBadFees` exactly when the running sum crosses it, provided each
individual fee is a `uint64` value. -/
theorem accumulateFees_eq (txFees : List Nat) (totalFees : Nat)
    (hf : ∀ f ∈ txFees, f < U64) (ht : totalFees < U64) :
    accumulateFees txFees totalFees =
      if totalFees + txFees.sum < U64 then .ok (totalFees + txFees.sum)
      else .error .badFees := by
  have hU : 0 < U64 := by norm_num [U64]
  induction txFees generalizing totalFees with
  | nil => simp [accumulateFees, ht]
  | cons f fs ih =>
    have hfU : f < U64 := hf f (by simp)
    by_cases hw : totalFees + f < U64
    · have hmod : (totalFees + f) % U64 = totalFees + f := Nat.mod_eq_of_lt hw
      simp only [accumulateFees, hmod, List.sum_cons]
      rw [if_neg (by omega)]
      rw [ih (totalFees + f) (fun g hg => hf g (List.mem_cons_of_mem f hg)) hw]
      have harr : totalFees + f + fs.sum = totalFees + (f + fs.sum) := by ring
      rw [harr]
    · have hle : U64 ≤ totalFees + f := le_of_not_lt hw
      have hmod : (totalFees + f) % U64 = totalFees + f - U64 := by
        rw [Nat.mod_eq_sub_mod hle, Nat.mod_eq_of_lt (by omega)]
      simp only [accumulateFees, hmod, List.sum_cons]
      rw [if_pos (by omega), if_neg (by omega)]

/-- The unchecked coinbase-output summation equals the exact sum as long as
that sum stays below `2 ^ 64`. -/
theorem foldlAddMod_eq (vals : List Nat) (acc : Nat) (h : acc + vals.sum < U64) :
    vals.foldl (fun a v => (a + v) % U64) acc = acc + vals.sum := by
  induction vals generalizing acc with
  | nil => simp
  | cons v vs ih =>
    simp only [List.foldl_cons, List.sum_cons] at h ⊢
    have hmod : (acc + v) % U64 = acc + v := Nat.mod_eq_of_lt (by omega)
    rw [hmod, ih (acc + v) (by omega)]
    ring

/-- C3: block connection accumulates the per-transaction fees in `uint64`
with a wrap check — it fails with `ErrBadFees` exactly when the fee sum
reaches `2 ^ 64` — and, when no quantity involved overflows, fails with
`ErrBadCoinbaseValue` exactly when the coinbase output total exceeds
`subsidy + total fees`, succeeding otherwise. -/
theorem connect_fee_coinbase_spec (txFees coinbaseVals : List Nat) (subsidy : Nat)
    (hf : ∀ f ∈ txFees, f < U64) :
    (connectFeeAndCoinbaseCheck txFees coinbaseVals subsidy = .error .badFees
      ↔ U64 ≤ txFees.sum)
    ∧ (txFees.sum < U64 → coinbaseVals.sum < U64 → subsidy + txFees.sum < U64 →
        (connectFeeAndCoinbaseCheck txFees coinbaseVals subsidy = .error .badCoinbaseValue
          ↔ subsidy + txFees.sum < coinbaseVals.sum)
        ∧ (connectFeeAndCoinbaseCheck txFees coinbaseVals subsidy = .ok ()
          ↔ coinbaseVals.sum ≤ subsidy + txFees.sum)) := by
  have hU : 0 < U64 := by norm_num [U64]
  have hacc := accumulateFees_eq txFees 0 hf hU
  rw [Nat.zero_add] at hacc
  have hconn : connectFeeAndCoinbaseCheck txFees coinbaseVals subsidy =
      if txFees.sum < U64 then
        (if coinbaseVals.foldl (fun acc v => (acc + v) % U64) 0 > (subsidy + txFees.sum) % U64
         then Except.error Err.badCoinbaseValue else Except.ok ())
      else Except.error Err.badFees := by
    unfold connectFeeAndCoinbaseCheck
    rw [hacc]
    by_cases hs : txFees.sum < U64
    · rw [if_pos hs, if_pos hs]
    · rw [if_neg hs, if_neg hs]
  rw [hconn]
  constructor
  · by_cases hs : txFees.sum < U64
    · rw [if_pos hs]
      constructor
      · intro h
        split at h <;> simp_all
      · intro h
        omega
    · rw [if_neg hs]
      simp [le_of_not_lt hs]
  · intro hs hcv hexp
    rw [if_pos hs]
    rw [foldlAddMod_eq coinbaseVals 0 (by omega)]
    rw [Nat.zero_add, Nat.mod_eq_of_lt hexp]
    by_cases hgt : subsidy + txFees.sum < coinbaseVals.sum
    · rw [if_pos hgt]
      refine ⟨by simp [hgt], ?_, ?_⟩
      · intro h
        cases h
      · intro h
        omega
    · rw [if_neg hgt]
      constructor
      · constructor
        · intro h
          cases h
        · intro h
          omega
      · simp [le_of_not_lt hgt]

/-- Witness for C3 at a concrete input: fees 3 and 4 with a 2-token subsidy
reject a 10-token coinbase output. -/
theorem connect_fee_coinbase_spec_witness :
    connectFeeAndCoinbaseCheck [3, 4] [10] 2 = .error .badCoinbaseValue :=
  (((connect_fee_coinbase_spec [3, 4] [10] 2
      (by intro f hf; fin_cases hf <;> norm_num [U64])).2
    (by norm_num [U64]) (by norm_num [U64]) (by norm_num [U64])).1).mpr (by norm_num)

/-- C10: encoding an operand of 1 to 65535 bytes with `AddOperand` and parsing
the resulting script from position 0 with `parseNextOp` yields the operand
back, no error, and a program counter equal to the script's total length. -/
theorem addOperand_parse_roundtrip (d : List Byte) (h1 : 0 < d.length)
    (h2 : d.length ≤ 0xffff) :
    ∃ op, parseNextOp (addOperand [] d) 0 = (op, d, (addOperand [] d).length, none) := by
  by_cases hA : d.length < 76
  · have hs : addOperand [] d = d.length :: d := by
      simp only [addOperand]
      rw [if_pos (show d.length < OPPUSHDATA1 by simpa [OPPUSHDATA1] using hA)]
      simp
    refine ⟨d.length, ?_⟩
    rw [hs]
    simp only [parseNextOp, finishParse, List.getD_cons_zero, List.length_cons]
    rw [if_neg (show ¬ 0 ≥ d.length + 1 by omega)]
    rw [if_neg (show ¬ d.length > OPPUSHDATA4 by simp only [OPPUSHDATA4]; omega)]
    rw [if_pos (show d.length < OPPUSHDATA1 by simp only [OPPUSHDATA1]; omega)]
    rw [if_neg (show ¬ d.length + 1 - (0 + 1) < d.length by omega)]
    simp [List.take_length]
    omega
  · by_cases hB : d.length ≤ 0xff
    · have hs : addOperand [] d = OPPUSHDATA1 :: d.length :: d := by
        simp only [addOperand]
        rw [if_neg (show ¬ d.length < OPPUSHDATA1 by simpa [OPPUSHDATA1] using hA)]
        rw [if_pos hB]
        simp
      refine ⟨OPPUSHDATA1, ?_⟩
      rw [hs]
      simp only [parseNextOp, finishParse, List.getD_cons_zero, List.getD_cons_succ,
        List.length_cons]
      rw [if_neg (show ¬ 0 ≥ d.length + 1 + 1 by omega)]
      rw [if_neg (show ¬ OPPUSHDATA1 > OPPUSHDATA4 by decide)]
      rw [if_neg (show ¬ OPPUSHDATA1 < OPPUSHDATA1 by decide)]
      rw [if_pos trivial]
      rw [if_neg (show ¬ d.length + 1 + 1 - (0 + 1) < 1 by omega)]
      rw [if_neg (show ¬ d.length + 1 + 1 - (0 + 1 + 1) < d.length by omega)]
      simp [List.take_length]
      omega
    · have hs : addOperand [] d =
          OPPUSHDATA2 :: (d.length % 256) :: (d.length / 256 % 256) :: d := by
        simp only [addOperand]
        rw [if_neg (show ¬ d.length < OPPUSHDATA1 by simp only [OPPUSHDATA1]; omega)]
        rw [if_neg hB]
        rw [if_pos h2]
        simp
      refine ⟨OPPUSHDATA2, ?_⟩
      rw [hs]
      have hsize : leUint16 (d.length % 256) (d.length / 256 % 256) = d.length := by
        simp only [leUint16]
        omega
      simp only [parseNextOp, finishParse, List.getD_cons_zero, List.getD_cons_succ,
        List.length_cons]
      rw [if_neg (show ¬ 0 ≥ d.length + 1 + 1 + 1 by omega)]
      rw [if_neg (show ¬ OPPUSHDATA2 > OPPUSHDATA4 by decide)]
      rw [if_neg (show ¬ OPPUSHDATA2 < OPPUSHDATA1 by decide)]
      rw [if_neg (show ¬ OPPUSHDATA2 = OPPUSHDATA1 by decide)]
      rw [if_pos trivial]
      rw [if_neg (show ¬ d.length + 1 + 1 + 1 - (0 + 1) < 2 by omega)]
      rw [hsize]
      rw [if_neg (show ¬ d.length + 1 + 1 + 1 - (0 + 1 + 2) < d.length by omega)]
      simp [List.take_length]
      omega

/-- Witness for C10 at a concrete input: the three-byte operand `[7, 8, 9]`
round-trips. -/
theorem addOperand_parse_roundtrip_witness :
    ∃ op, parseNextOp (addOperand [] [7, 8, 9]) 0 =
      (op, [7, 8, 9], (addOperand [] ([7, 8, 9] : List Byte)).length, none) :=
  addOperand_parse_roundtrip [7, 8, 9] (by decide) (by decide)

/-- C2: `Validate` succeeds exactly when phase 1 — evaluating
`script_sig || OP_CODESEPARATOR || script_pubkey` — succeeds and, whenever
`script_pubkey` has the 23-byte `OP_HASH160 <20-byte push> OP_EQUAL` form,
phase 2 — re-parsing `script_sig` as signature and serialized redeem script
and evaluating `push(signature) || OP_CODESEPARATOR || redeem_script` — also
succeeds; for a non-P2SH `script_pubkey` the result is phase 1's result. -/
theorem Validate_phases_iff (env : ScriptEnv) (scriptSig scriptPubKey : List Byte) :
    (Validate env scriptSig scriptPubKey = .ok () ↔
      (p2shPhase1 env scriptSig scriptPubKey = .ok ()
        ∧ (IsPayToScriptHash scriptPubKey = true → p2shPhase2 env scriptSig = .ok ())))
    ∧ (IsPayToScriptHash scriptPubKey = false →
        Validate env scriptSig scriptPubKey = p2shPhase1 env scriptSig scriptPubKey) := by
  unfold Validate p2shPhase1 p2shPhase2
  cases hev : evaluate env (scriptSig ++ OPCODESEPARATOR :: scriptPubKey) with
  | error e =>
    constructor
    · simp [hev]
    · intro hnp
      simp [hev]
  | ok u =>
    by_cases hp : IsPayToScriptHash scriptPubKey
    · constructor
      · simp [hev, hp]
      · intro hnp
        rw [hnp] at hp
        cases hp
    · constructor
      · simp [hev, hp]
      · intro _
        simp [hev, hp]

/-- Witness for C2 at a concrete input: an empty unlocking script against the
locking script `[OP_1]`, which is not P2SH, validates with phase 1 alone. -/
theorem Validate_phases_iff_witness :
    Validate testScriptEnv [] [OP1] = p2shPhase1 testScriptEnv [] [OP1]
    ∧ p2shPhase1 testScriptEnv [] [OP1] = .ok () :=
  ⟨(Validate_phases_iff testScriptEnv [] [OP1]).2 (by decide), by decide⟩

/-- C7 counterexample: a block that passes deduplication, signature and
structural validation and whose parent is unknown is admitted as an orphan,
yet `ProcessBlock` returns the sync manager's error, not success: with the
sender known (`"peer"`), the tail at height 1, the orphan at height 10
(within the light-sync window of 32) and `ActiveLightSync` failing, the
orphan branch returns that failure. -/
theorem processBlock_orphan_sync_error :
    (processBlock (testChainEnv (fun _ => false) (fun _ => .ok ()) (.error .syncFail)) 1
      (emptyChainState 1) (testBlock 5 99 10) "peer").1 = .error .syncFail := by
  decide

/-- C7 amended: a block that passes deduplication, consensus-signature and
structural validation and whose parent is neither on the main chain nor in
the cache is inserted into both orphan maps; the call returns success unless
the sender is known, the orphan is above the tail, and the height gap is
within the light-sync threshold, in which case it returns the result of the
sync manager's `ActiveLightSync` call (an error when that call fails). -/
theorem processBlock_orphan_admits (env : ChainEnv) (fuel : Nat) (st : ChainState)
    (block : Block) (messageFrom : String)
    (hd1 : env.blockExistsMain block.hash = false)
    (hd2 : st.hashToOrphanBlock block.hash = none)
    (hsig : env.verifySign block = true)
    (hval : env.validateBlock block = .ok ())
    (hpar : env.blockExistsMain block.prevHash = false) :
    ((processBlock env fuel st block messageFrom).2.hashToOrphanBlock block.hash
        = some block)
    ∧ ((processBlock env fuel st block messageFrom).2.orphanChildren block.prevHash
        = st.orphanChildren block.prevHash ++ [block])
    ∧ ((processBlock env fuel st block messageFrom).1 =
        if st.tailHeight < block.height ∧ messageFrom ≠ ""
            ∧ block.height - st.tailHeight < Threshold
        then env.activeLightSync else .ok ()) := by
  have hred : processBlock env fuel st block messageFrom =
      (if st.tailHeight < block.height ∧ messageFrom ≠ "" then
        if block.height - st.tailHeight < Threshold then
          (env.activeLightSync, addOrphanBlock st block block.hash block.prevHash)
        else (.ok (), addOrphanBlock st block block.hash block.prevHash)
      else (.ok (), addOrphanBlock st block block.hash block.prevHash)) := by
    simp only [processBlock, hd1, hd2, hsig, hval, hpar]
    simp
  rw [hred]
  refine ⟨?_, ?_, ?_⟩
  · split
    · split <;> simp [addOrphanBlock]
    · simp [addOrphanBlock]
  · split
    · split <;> simp [addOrphanBlock]
    · simp [addOrphanBlock]
  · by_cases hA : st.tailHeight < block.height ∧ messageFrom ≠ ""
    · by_cases hB : block.height - st.tailHeight < Threshold
      · simp [hA, hB, hA.1, hA.2]
      · simp [hA, hB]
    · rw [if_neg hA, if_neg (fun hc => hA ⟨hc.1, hc.2.1⟩)]

/-- Witness for the amended C7 at a concrete input: a locally submitted
orphan (empty sender) is admitted into `hash_to_orphan` and
`parent_hash_to_children` and the call succeeds. -/
theorem processBlock_orphan_admits_witness :
    ((processBlock (testChainEnv (fun _ => false) (fun _ => .ok ()) (.error .syncFail)) 1
        (emptyChainState 1) (testBlock 5 99 10) "").2.hashToOrphanBlock
          (testBlock 5 99 10).hash = some (testBlock 5 99 10))
    ∧ ((processBlock (testChainEnv (fun _ => false) (fun _ => .ok ()) (.error .syncFail)) 1
        (emptyChainState 1) (testBlock 5 99 10) "").1 = .ok ()) := by
  have h := processBlock_orphan_admits
    (testChainEnv (fun _ => false) (fun _ => .ok ()) (.error .syncFail)) 1
    (emptyChainState 1) (testBlock 5 99 10) "" rfl rfl rfl rfl rfl
  exact ⟨h.1, h.2.2.trans (by decide)⟩

/-- Draining a child list whose prefix is accepted and whose next element is
rejected stops at the rejection: the error is returned with the accepted
prefix queued, exactly the visited children (prefix plus the failing one)
deleted from `hash_to_orphan`, and the children map and tail untouched. -/
theorem drainChildren_error (env : ChainEnv) (bad : Block) (post : List Block)
    (e : Err) (hbad : env.tryAccept bad = .error e) :
    ∀ (pre : List Block) (queue : List Block) (st : ChainState),
      (∀ c ∈ pre, env.tryAccept c = .ok ()) →
      ∃ st1, drainChildren env (pre ++ bad :: post) queue st = (.error e, queue ++ pre, st1)
        ∧ (∀ h, st1.hashToOrphanBlock h =
            if h ∈ (pre ++ [bad]).map Block.hash then none else st.hashToOrphanBlock h)
        ∧ st1.orphanChildren = st.orphanChildren
        ∧ st1.tailHeight = st.tailHeight := by
  intro pre
  induction pre with
  | nil =>
    intro queue st _
    refine ⟨{ st with hashToOrphanBlock := fun h2 =>
      if h2 = bad.hash then none else st.hashToOrphanBlock h2 }, ?_, ?_, rfl, rfl⟩
    · simp only [List.nil_append, drainChildren, hbad]
      simp
    · intro h
      by_cases hh : h = bad.hash <;> simp [hh]
  | cons c cs ih =>
    intro queue st hpre
    have hc : env.tryAccept c = .ok () := hpre c (by simp)
    obtain ⟨st2, heq, hh, hoc, hth⟩ := ih (queue ++ [c])
      { st with hashToOrphanBlock := fun h =>
          if h = c.hash then none else st.hashToOrphanBlock h }
      (fun g hg => hpre g (List.mem_cons_of_mem c hg))
    refine ⟨st2, ?_, ?_, hoc, hth⟩
    · show drainChildren env ((c :: cs) ++ bad :: post) queue st = _
      simp only [List.cons_append, drainChildren, hc]
      exact heq.trans (by simp)
    · intro h
      rw [hh h]
      show (if h ∈ List.map Block.hash (cs ++ [bad]) then none
            else if h = c.hash then none else st.hashToOrphanBlock h)
          = (if h ∈ List.map Block.hash ((c :: cs) ++ [bad]) then none
             else st.hashToOrphanBlock h)
      by_cases h1 : h ∈ List.map Block.hash (cs ++ [bad])
      · rw [if_pos h1, if_pos (show h ∈ List.map Block.hash ((c :: cs) ++ [bad]) from
          List.mem_cons_of_mem c.hash h1)]
      · by_cases h3 : h = c.hash
        · rw [if_neg h1, if_pos h3, if_pos (show h ∈ List.map Block.hash ((c :: cs) ++ [bad]) from by
            rw [h3]
            exact List.mem_cons_self c.hash (List.map Block.hash (cs ++ [bad])))]
        · rw [if_neg h1, if_neg h3, if_neg (show ¬ h ∈ List.map Block.hash ((c :: cs) ++ [bad]) from by
            intro hcon
            rcases List.mem_cons.mp hcon with hcon1 | hcon2
            · exact h3 hcon1
            · exact h1 hcon2)]

/-- C9: when `tryAcceptBlock` rejects some orphan child while the pool is
drained after an accepted block, `processOrphans` stops at that child and
`ProcessBlock` returns the error even though the submitted block itself was
accepted; the children visited up to and including the failing one have been
deleted from `hash_to_orphan`, later children and deeper descendants are left
untouched, and the children map is unchanged. -/
theorem processOrphans_failure_stops (env : ChainEnv) (fuel : Nat) (st : ChainState)
    (block : Block) (messageFrom : String) (pre : List Block) (bad : Block)
    (post : List Block) (e : Err)
    (hd1 : env.blockExistsMain block.hash = false)
    (hd2 : st.hashToOrphanBlock block.hash = none)
    (hsig : env.verifySign block = true)
    (hval : env.validateBlock block = .ok ())
    (hpar : env.blockExistsMain block.prevHash = true)
    (hacc : env.tryAccept block = .ok ())
    (hch : st.orphanChildren block.hash = pre ++ bad :: post)
    (hpre : ∀ c ∈ pre, env.tryAccept c = .ok ())
    (hbad : env.tryAccept bad = .error e)
    (hfuel : 0 < fuel) :
    ((processBlock env fuel st block messageFrom).1 = .error e)
    ∧ (∀ h, (processBlock env fuel st block messageFrom).2.hashToOrphanBlock h =
        if h ∈ (pre ++ [bad]).map Block.hash then none else st.hashToOrphanBlock h)
    ∧ (∀ h, (processBlock env fuel st block messageFrom).2.orphanChildren h
        = st.orphanChildren h) := by
  obtain ⟨f, rfl⟩ : ∃ f, fuel = f + 1 := ⟨fuel - 1, by omega⟩
  obtain ⟨st1, heq, hh, hoc, _⟩ := drainChildren_error env bad post e hbad pre [] st hpre
  have hred : processBlock env (f + 1) st block messageFrom = (.error e, st1) := by
    simp only [processBlock, hd1, hd2, hsig, hval, hpar]
    simp only [processOrphans, processOrphansLoop, hch]
    rw [heq]
    simp [hacc]
  rw [hred]
  exact ⟨rfl, hh, fun h => congrFun hoc h⟩

/-- Witness for C9 at a concrete input: block 1's three orphan children are
drained; child 6 is accepted, child 7 rejected — `ProcessBlock` returns the
rejection although block 1 itself was accepted. -/
theorem processOrphans_failure_stops_witness :
    (processBlock
      (testChainEnv (fun h => h == 0) (fun b => if b.hash == 7 then .error .validateFail else .ok ()) (.ok ()))
      1 testOrphanState (testBlock 1 0 1) "").1 = .error .validateFail :=
  (processOrphans_failure_stops
    (testChainEnv (fun h => h == 0) (fun b => if b.hash == 7 then .error .validateFail else .ok ()) (.ok ()))
    1 testOrphanState (testBlock 1 0 1) "" [testBlock 6 1 2] (testBlock 7 1 2)
    [testBlock 8 1 2] .validateFail rfl rfl rfl rfl rfl rfl rfl
    (by decide) rfl (by decide)).1

/-- Parent walks decrease the height by exactly their step count when every
parent link drops the height by one. -/
theorem iterParent_height (env : ForkEnv)
    (hpar : ∀ b b2, env.parent b = some b2 → b2.height + 1 = b.height) :
    ∀ (k : Nat) (b a : Block), iterParent env k b = some a → a.height + k = b.height := by
  intro k
  induction k with
  | zero =>
    intro b a h
    simp only [iterParent, Option.some.injEq] at h
    rw [h]
    omega
  | succ n ih =>
    intro b a h
    simp only [iterParent] at h
    cases hp : env.parent b with
    | none =>
      rw [hp] at h
      cases h
    | some p =>
      rw [hp] at h
      have h1 := ih p a h
      have h2 := hpar b p hp
      omega

/-- Splitting a parent walk at an intermediate step count. -/
theorem iterParent_add (env : ForkEnv) :
    ∀ (m n : Nat) (b : Block),
      iterParent env (m + n) b = (iterParent env m b).bind (fun c => iterParent env n c) := by
  intro m
  induction m with
  | zero =>
    intro n b
    simp [iterParent]
  | succ k ih =>
    intro n b
    have harr : k + 1 + n = (k + n) + 1 := by omega
    rw [harr]
    simp only [iterParent]
    cases hp : env.parent b with
    | none => simp
    | some p => simp [ih n p]

/-- The descending loop of `findFork` runs to completion when the side chain
has enough ancestors, collecting one block per step. -/
theorem findForkDescend_ok (env : ForkEnv) :
    ∀ (k : Nat) (b : Block) (attach : List Block) (c : Block),
      iterParent env k b = some c →
      ∃ L, findForkDescend env k (some b) attach = .ok (attach ++ L, some c)
        ∧ L.length = k := by
  intro k
  induction k with
  | zero =>
    intro b attach c h
    simp only [iterParent, Option.some.injEq] at h
    refine ⟨[], ?_, rfl⟩
    rw [h]
    simp [findForkDescend]
  | succ n ih =>
    intro b attach c h
    simp only [iterParent] at h
    cases hp : env.parent b with
    | none =>
      rw [hp] at h
      cases h
    | some p =>
      rw [hp] at h
      obtain ⟨L, hL, hlen⟩ := ih p (attach ++ [b]) c h
      refine ⟨b :: L, ?_, by simp [hlen]⟩
      simp only [findForkDescend, hp]
      rw [hL]
      simp

/-- When the two cursors already agree in hash (and height) and the attach
list has the strict surplus, the joining loop returns them at once, for any
remaining bound. -/
theorem findForkJoin_found (env : ForkEnv) (fuel : Nat) (m s : Block)
    (detach attach : List Block) (hms : m.height = s.height) (hhash : m.hash = s.hash)
    (hlen : detach.length < attach.length) :
    findForkJoin env fuel (some m) (some s) detach attach = .ok (m, detach, attach) := by
  cases fuel with
  | zero =>
    simp only [findForkJoin]
    rw [if_neg (show ¬ m.height ≠ s.height from by omega), if_pos hhash,
      if_neg (show ¬ attach.length ≤ detach.length from by omega)]
  | succ n =>
    simp only [findForkJoin]
    rw [if_neg (show ¬ m.height ≠ s.height from by omega), if_pos hhash,
      if_neg (show ¬ attach.length ≤ detach.length from by omega)]

/-- When the cursors agree in height but not in hash, the joining loop
records both blocks and steps to the parents. -/
theorem findForkJoin_step (env : ForkEnv) (f : Nat) (m s : Block)
    (detach attach : List Block) (hms : m.height = s.height) (hhash : ¬ m.hash = s.hash) :
    findForkJoin env (f + 1) (some m) (some s) detach attach
      = findForkJoin env f (env.parent m) (env.parent s) (detach ++ [m]) (attach ++ [s]) := by
  simp only [findForkJoin]
  rw [if_neg (show ¬ m.height ≠ s.height from by omega), if_neg hhash]

/-- The joining loop of `findFork` reaches a common block within its bound
when both walks meet after `j` steps at equal heights, and it preserves the
strict length surplus of the attach list. -/
theorem findForkJoin_ok (env : ForkEnv)
    (hpar : ∀ b b2, env.parent b = some b2 → b2.height + 1 = b.height) :
    ∀ (j fuel : Nat) (m s : Block) (detach attach : List Block) (a : Block),
      m.height = s.height →
      iterParent env j m = some a → iterParent env j s = some a →
      j ≤ fuel → detach.length < attach.length →
      ∃ fork d2 a2,
        findForkJoin env fuel (some m) (some s) detach attach = .ok (fork, d2, a2)
        ∧ d2.length < a2.length := by
  intro j
  induction j with
  | zero =>
    intro fuel m s detach attach a hms hm hs _ hlen
    simp only [iterParent, Option.some.injEq] at hm hs
    exact ⟨m, detach, attach,
      findForkJoin_found env fuel m s detach attach hms (by rw [hm, hs]) hlen, hlen⟩
  | succ n ih =>
    intro fuel m s detach attach a hms hm hs hj hlen
    by_cases hhash : m.hash = s.hash
    · exact ⟨m, detach, attach,
        findForkJoin_found env fuel m s detach attach hms hhash hlen, hlen⟩
    · simp only [iterParent] at hm hs
      cases hpm : env.parent m with
      | none =>
        rw [hpm] at hm
        cases hm
      | some m2 =>
        cases hps : env.parent s with
        | none =>
          rw [hps] at hs
          cases hs
        | some s2 =>
          rw [hpm] at hm
          rw [hps] at hs
          have hm2 := hpar m m2 hpm
          have hs2 := hpar s s2 hps
          obtain ⟨f, rfl⟩ : ∃ f, fuel = f + 1 := ⟨fuel - 1, by omega⟩
          obtain ⟨fork, d2, a2, hres, hlen2⟩ := ih f m2 s2 (detach ++ [m]) (attach ++ [s]) a
            (by omega) hm hs (by omega) (by simp only [List.length_append, List.length_cons, List.length_nil]; omega)
          refine ⟨fork, d2, a2, ?_, hlen2⟩
          rw [findForkJoin_step env f m s detach attach hms hhash, hpm, hps]
          exact hres

/-- C5: under the reorg precondition — the triggering block sits strictly
above the main chain's longest height, parent links drop the height by one,
the tail sits at the longest height, and walking parent links from both the
side chain (aligned down to the tail's height) and the main chain meets at a
common ancestor — `findFork` returns a detach list and an attach list with
`detach.length < attach.length` strictly, reaching none of its panic
branches (height mismatch, missing parent, fork point not found, or a
non-surplus attach list) and not exhausting its bound. -/
theorem findFork_meets_invariant (env : ForkEnv) (tail : Block) (longest : Nat)
    (block : Block)
    (hpar : ∀ b b2, env.parent b = some b2 → b2.height + 1 = b.height)
    (htail : tail.height = longest)
    (hgt : longest < block.height)
    (hanc : ∃ j a, iterParent env j tail = some a
        ∧ iterParent env (block.height - longest + j) block = some a) :
    ∃ fork detach attach,
      findFork env tail longest block (longest + 1) = .ok (fork, detach, attach)
      ∧ detach.length < attach.length := by
  obtain ⟨j, a, hj, hblk⟩ := hanc
  have hadd := iterParent_add env (block.height - longest) j block
  rw [hblk] at hadd
  cases hK : iterParent env (block.height - longest) block with
  | none =>
    rw [hK] at hadd
    cases hadd
  | some s0 =>
    rw [hK] at hadd
    have hs0j : iterParent env j s0 = some a := hadd.symm
    have hs0h : s0.height + (block.height - longest) = block.height :=
      iterParent_height env hpar (block.height - longest) block s0 hK
    have haj : a.height + j = tail.height := iterParent_height env hpar j tail a hj
    obtain ⟨L, hL, hlen⟩ := findForkDescend_ok env (block.height - longest) block [] s0 hK
    unfold findFork
    rw [if_neg (show ¬ block.height ≤ longest by omega)]
    rw [hL]
    simp only [List.nil_append]
    obtain ⟨fork, d2, a2, hres, hlen2⟩ := findForkJoin_ok env hpar j (longest + 1)
      tail s0 [] L a (by omega) hj hs0j (by omega)
      (by simp only [List.length_nil, hlen]; omega)
    exact ⟨fork, d2, a2, hres, hlen2⟩

/-- Witness for C5 at a concrete input: a two-block side chain over a
height-1 main chain; the fork is found with one attach surplus. -/
theorem findFork_meets_invariant_witness :
    ∃ fork detach attach,
      findFork testParentEnv (testBlock 1 0 1) 1 (testBlock 2 0 2) 2
        = .ok (fork, detach, attach)
      ∧ detach.length < attach.length :=
  findFork_meets_invariant testParentEnv (testBlock 1 0 1) 1 (testBlock 2 0 2)
    (by
      intro b b2 h
      simp only [testParentEnv] at h
      by_cases hb : b.height = 0
      · rw [if_pos hb] at h
        cases h
      · rw [if_neg hb] at h
        cases h
        simp [testBlock]
        omega)
    rfl (by decide)
    ⟨0, testBlock 1 0 1, rfl, by decide⟩

/-- `filterVin` distributes over map concatenation. -/
theorem filterVin_append (a b : List (Option UtxoWrap)) :
    filterVin (a ++ b) = filterVin a ++ filterVin b := by
  simp [filterVin, List.filterMap_append]

/-- Marking entries spent does not change the scripts `filterVin` collects. -/
theorem filterVin_markSpent : ∀ (refs : List (Option UtxoWrap)),
    filterVin (refs.map (fun u => u.map (fun w => { w with isSpent := true, isModified := true })))
      = filterVin refs := by
  intro refs
  induction refs with
  | nil => rfl
  | cons u us ih =>
    cases u with
    | none =>
      simp only [filterVin, List.map_cons, List.filterMap_cons, Option.map_none'] at ih ⊢
      exact ih
    | some w =>
      cases hw : w.output with
      | none =>
        simp only [filterVin, List.map_cons, List.filterMap_cons, Option.map_some', hw] at ih ⊢
        exact ih
      | some out =>
        simp only [filterVin, List.map_cons, List.filterMap_cons, Option.map_some', hw] at ih ⊢
        rw [ih]

/-- The wraps freshly created for a transaction's outputs contribute exactly
the output scripts. -/
theorem filterVin_map_mk (vout : List TxOut) (hgt : Nat) (cb : Bool) :
    filterVin (vout.map (fun out =>
        some { output := some out, blockHeight := hgt, isCoinbase := cb,
               isSpent := false, isModified := true }))
      = vout.map (fun out => out.scriptPubKey) := by
  induction vout with
  | nil => rfl
  | cons o os ih =>
    simp only [filterVin, List.map_cons, List.filterMap_cons] at ih ⊢
    rw [ih]

/-- The wraps created for all of a block's outputs contribute exactly the
`vout` scripts, regardless of the enumeration start. -/
theorem filterVin_created (hgt : Nat) : ∀ (l : List Tx) (i : Nat),
    filterVin ((l.enumFrom i).flatMap (fun p => p.2.vout.map (fun out =>
        some { output := some out, blockHeight := hgt, isCoinbase := p.1 = 0,
               isSpent := false, isModified := true })))
      = l.flatMap (fun tx => tx.vout.map (fun out => out.scriptPubKey)) := by
  intro l
  induction l with
  | nil => intro i; rfl
  | cons t ts ih =>
    intro i
    show filterVin ((((i, t) :: ts.enumFrom (i + 1)).flatMap (fun p => p.2.vout.map (fun out =>
        some { output := some out, blockHeight := hgt, isCoinbase := p.1 = 0,
               isSpent := false, isModified := true }))))
      = (t :: ts).flatMap (fun tx => tx.vout.map (fun out => out.scriptPubKey))
    simp only [List.flatMap_cons]
    rw [filterVin_append, filterVin_map_mk, ih (i + 1)]

/-- When every loaded entry is a wrap with an output, `filterVin` keeps one
script per entry. -/
theorem filterVin_length : ∀ (refs : List (Option UtxoWrap)),
    (∀ u ∈ refs, ∃ w out, u = some w ∧ w.output = some out) →
    (filterVin refs).length = refs.length := by
  intro refs
  induction refs with
  | nil => intro _; rfl
  | cons u us ih =>
    intro href
    obtain ⟨w, out, hu, hout⟩ := href u (by simp)
    subst hu
    have hrest := ih (fun v hv => href v (List.mem_cons_of_mem _ hv))
    simp only [filterVin, List.filterMap_cons, hout] at hrest ⊢
    simp [hrest]

/-- C8 counterexample: for a block holding one coinbase transaction with a
single token-issue output and no inputs, the filter built through the
`applyBlock` composition (the utxo map after `ApplyBlock`, which also holds
the created output) is dimensioned for capacity 3, not `0 + 1 + 1 = 2` as the
claim states, and its added elements include the full token script, which the
claim says is replaced by the embedded pay-to-pubkey-hash part. -/
theorem filter_applyblock_mismatch :
    GetFilterForTransactionScript testTokenEnv testTokenBlock
        (utxoMapAfterApply [] testTokenBlock)
      ≠ claimedFilterSpec testTokenEnv testTokenBlock (filterVin [])
    ∧ (GetFilterForTransactionScript testTokenEnv testTokenBlock
        (utxoMapAfterApply [] testTokenBlock)).capacity = 3
    ∧ (claimedFilterSpec testTokenEnv testTokenBlock (filterVin [])).capacity = 2
    ∧ [0xaa] ∈ (GetFilterForTransactionScript testTokenEnv testTokenBlock
        (utxoMapAfterApply [] testTokenBlock)).adds := by
  decide

/-- C8 amended: `GetFilterForTransactionScript` realizes the claim's
construction — capacity `n_inputs + n_outputs + 1` at rate 1e-4 with exactly
the referenced input scripts and the token-adjusted output scripts — when its
utxo map holds exactly the block's loaded referenced outputs (the startup
rebuild path); at the `applyBlock` call site, however, the map passed in also
holds the block's own created outputs, so the filter there is dimensioned for
`n_inputs + 2·n_outputs + 1` and additionally holds every created output's
full script (token scripts unreplaced) via the map pass. -/
theorem filter_construction_spec (tok : TokenEnv) (block : Block)
    (refs : List (Option UtxoWrap))
    (href : ∀ u ∈ refs, ∃ w out, u = some w ∧ w.output = some out) :
    (GetFilterForTransactionScript tok block refs
        = claimedFilterSpec tok block (filterVin refs))
    ∧ (filterVin refs).length = refs.length
    ∧ (GetFilterForTransactionScript tok block (utxoMapAfterApply refs block)).capacity
        = refs.length + (voutScripts block).length + (voutScripts block).length + 1
    ∧ (GetFilterForTransactionScript tok block (utxoMapAfterApply refs block)).adds
        = filterVin refs ++ voutScripts block
            ++ (voutScripts block).map (fun scriptBytes => tokenAdjust tok scriptBytes) := by
  have hsplit : filterVin (utxoMapAfterApply refs block)
      = filterVin refs ++ voutScripts block := by
    unfold utxoMapAfterApply
    rw [filterVin_append, filterVin_markSpent]
    show filterVin refs ++ filterVin ((block.txs.enumFrom 0).flatMap _)
      = filterVin refs ++ voutScripts block
    rw [filterVin_created block.height block.txs 0]
    rfl
  have hlen := filterVin_length refs href
  refine ⟨rfl, hlen, ?_, ?_⟩
  · show (filterVin (utxoMapAfterApply refs block)).length + (voutScripts block).length + 1 = _
    rw [hsplit]
    simp [hlen]
  · show filterVin (utxoMapAfterApply refs block)
        ++ (voutScripts block).map (fun scriptBytes => tokenAdjust tok scriptBytes) = _
    rw [hsplit, List.append_assoc]

/-- Witness for the amended C8 at a concrete input: one referenced non-token
input and the one-token-output block. -/
theorem filter_construction_spec_witness :
    (GetFilterForTransactionScript testTokenEnv testTokenBlock
        (utxoMapAfterApply [some testRefWrap] testTokenBlock)).capacity
      = ([some testRefWrap] : List (Option UtxoWrap)).length
        + (voutScripts testTokenBlock).length + (voutScripts testTokenBlock).length + 1 :=
  (filter_construction_spec testTokenEnv testTokenBlock [some testRefWrap]
    (by
      intro u hu
      rw [List.mem_singleton] at hu
      subst hu
      exact ⟨_, _, rfl, rfl⟩)).2.2.1

/-- A successful `parseNextOp` advances the program counter by at least one
byte: the justification for the interpreter bound in `evaluate`. -/
theorem parseNextOp_progress (s : List Byte) (pc : Nat)
    (h : (parseNextOp s pc).2.2.2 = none) : pc < (parseNextOp s pc).2.2.1 := by
  simp only [parseNextOp, finishParse] at h ⊢
  split_ifs at h ⊢ <;> simp_all <;> omega

/-- `parseNextOp` never reports fuel exhaustion. -/
theorem parseNextOp_ne_outOfFuel (s : List Byte) (pc : Nat) :
    (parseNextOp s pc).2.2.2 ≠ some .outOfFuel := by
  simp only [parseNextOp, finishParse]
  split_ifs <;> simp

/-- `newScriptNum` never reports fuel exhaustion. -/
theorem newScriptNum_ne_outOfFuel (op : List Byte) :
    newScriptNum op ≠ .error .outOfFuel := by
  unfold newScriptNum
  repeat' split
  all_goals simp

set_option maxHeartbeats 1000000 in
/-- `execOp` never reports fuel exhaustion. -/
theorem execOp_ne_outOfFuel (env : ScriptEnv) (s : List Byte) (opCode : Byte)
    (pushData : List Byte) (pc spkStart : Nat) (stack : List (List Byte)) :
    execOp env s opCode pushData pc spkStart stack ≠ .error .outOfFuel := by
  unfold execOp
  repeat' split
  all_goals try simp
  all_goals
    first
      | (rename_i heq
         intro hcon
         subst hcon
         exact newScriptNum_ne_outOfFuel _ heq)
      | (intro hcon
         split at hcon <;> simp at hcon)

/-- `validateTop` never reports fuel exhaustion. -/
theorem validateTop_ne_outOfFuel (stack : List (List Byte)) :
    validateTop stack ≠ .error .outOfFuel := by
  unfold validateTop
  repeat' split
  all_goals simp

/-- The interpreter loop does not exhaust a bound exceeding the remaining
script length: each successful parse consumes at least one byte. -/
theorem evalLoop_no_outOfFuel (env : ScriptEnv) (s : List Byte) :
    ∀ (fuel pc spkStart : Nat) (stack : List (List Byte)),
      s.length - pc < fuel →
      evalLoop env s fuel pc spkStart stack ≠ .error .outOfFuel := by
  intro fuel
  induction fuel with
  | zero =>
    intro pc spkStart stack hf
    omega
  | succ f ih =>
    intro pc spkStart stack hf
    by_cases hpc : pc < s.length
    · simp only [evalLoop, if_pos hpc]
      cases hp : parseNextOp s pc with
      | mk opCode rest =>
        obtain ⟨operand, newPc, err⟩ := rest
        cases err with
        | some e =>
          show (Except.error e : Except Err Unit) ≠ .error .outOfFuel
          intro hcon
          injection hcon with h1
          have hne := parseNextOp_ne_outOfFuel s pc
          rw [hp] at hne
          exact hne (show (opCode, operand, newPc, some e).2.2.2 = some Err.outOfFuel by rw [h1])
        | none =>
          show (match execOp env s opCode operand newPc spkStart stack with
            | .error e => (.error e : Except Err Unit)
            | .ok (spk2, stack2) => evalLoop env s f newPc spk2 stack2) ≠ .error .outOfFuel
          have hprog : pc < newPc := by
            have h2 := parseNextOp_progress s pc (by rw [hp])
            rw [hp] at h2
            exact h2
          cases hx : execOp env s opCode operand newPc spkStart stack with
          | error e =>
            show (Except.error e : Except Err Unit) ≠ .error .outOfFuel
            intro hcon
            injection hcon with h1
            have hne := execOp_ne_outOfFuel env s opCode operand newPc spkStart stack
            rw [hx, h1] at hne
            exact hne rfl
          | ok p =>
            obtain ⟨spk2, stack2⟩ := p
            show evalLoop env s f newPc spk2 stack2 ≠ .error .outOfFuel
            exact ih newPc spk2 stack2 (by omega)
    · simp only [evalLoop, if_neg hpc]
      exact validateTop_ne_outOfFuel stack

/-- `evaluate` never reports fuel exhaustion: the bound `s.length + 1` always
covers the source loop. -/
theorem evaluate_no_outOfFuel (env : ScriptEnv) (s : List Byte) :
    evaluate env s ≠ .error .outOfFuel :=
  evalLoop_no_outOfFuel env s (s.length + 1) 0 0 [] (by omega)

end Boxd
